import Mathlib

/-!
Verification development for the `leptos-mview` translation pipeline.

The crate root (`src/lib.rs`) documents the `mview!` macro and re-exports it
from the proc-macro crate; the proc-macro implementation itself is not part of
the sources available here, so the pipeline (attribute parsing, normalization,
code generation, slot grouping) is modelled below from the specification and
from the behaviour documented in `src/lib.rs` and exercised by
`tests/slots.rs`.  Values, attribute records, nodes and generated builder
calls follow the data model of the spec (§3); the normalizer and code
generator follow §4.5 and §4.6; the recoverable-diagnostic parsing rules
follow §4.3, §4.4 and §7.
-/

namespace LeptosMview

/-- Modelled from the spec: the `Value` data model (§3) of the missing
proc-macro crate — a literal (string / number / bool), a verbatim block
expression, or a bracketed expression carrying a format-shorthand flag. -/
inductive Value where
  | litStr (s : String)
  | litInt (n : Int)
  | litBool (b : Bool)
  | block (code : String)
  | bracketed (fmt : Bool) (code : String)
deriving DecidableEq, Repr

/-- Modelled from the spec: the fixed directive vocabulary (§6) of the missing
proc-macro crate: `class`, `style`, `on`, `prop`, `attr`, `clone`, `use`,
`bind`.  `class` and `use` are Lean keywords, hence `cls` and `useDir`. -/
inductive DirKind where
  | cls
  | style
  | on
  | prop
  | attr
  | clone
  | useDir
  | bind
deriving DecidableEq, Repr

/-- Modelled from the spec: the `AttributeRecord` data model (§3) of the
missing proc-macro crate — key-value, boolean flag, shorthand `{key}`,
directive with optional value, or directive shorthand `kind:{name}`. -/
inductive AttrRecord where
  | keyValue (key : String) (value : Value)
  | boolFlag (key : String)
  | shorthand (key : String)
  | directive (kind : DirKind) (subkey : String) (value : Option Value)
  | directiveShorthand (kind : DirKind) (name : String)
deriving DecidableEq, Repr

/-- Modelled from the spec: the `Node` data model (§3) of the missing
proc-macro crate.  A children-spec is an optional closure-parameter list
(`params`) plus an ordered child list. -/
inductive Node where
  | element (tag : String) (classes : List String) (ids : List String)
      (attrs : List AttrRecord) (params : List String) (children : List Node)
  | component (path : String) (attrs : List AttrRecord) (params : List String)
      (children : List Node)
  | slot (name : String) (attrs : List AttrRecord) (params : List String)
      (children : List Node)
  | text (s : String)
  | block (code : String)
  | bracketed (fmt : Bool) (code : String)
  | doctype
deriving Repr

/-- Hyphen-to-underscore translation on a single character. -/
def underscoreChar (c : Char) : Char := if c = '-' then '_' else c

/-- Modelled from the spec: kebab-case to snake-case identifier translation
(§4.5) used by the missing proc-macro crate for component keys and
shorthand-derived value identifiers. -/
def underscore (s : String) : String := ⟨s.data.map underscoreChar⟩

/-- Modelled from the spec: wrapping an expression into the zero-argument
closure `move || ...` (§4.5, "Values" section of `src/lib.rs`). -/
def moveWrap (code : String) : String := "move || " ++ code

/-- Modelled from the spec: wrapping a bracket argument list into a
`format!(...)` call (`src/lib.rs`: "Adding an `f` will add `format!` into
the closure"). -/
def fmtWrap (code : String) : String := "format!(" ++ code ++ ")"

/-- Modelled from the spec: the recognized format-shorthand names preceding a
bracketed value — "Currently, the only one is `f`" (`src/lib.rs`, §4.3). -/
def formatShorthandNames : List String := ["f"]

/-- Whether a bare identifier before a bracket group is a recognized
format shorthand. -/
def isFormatShorthand (s : String) : Bool := formatShorthandNames.contains s

/-- Modelled from the spec: value normalization (§4.5) of the missing
proc-macro crate — expands every `Bracketed` value into an explicit
zero-argument-closure-wrapped `Block`, inserting a formatting call around
the argument list first when the format-shorthand flag is set. -/
def normValue : Value → Value
  | .bracketed false code => .block (moveWrap code)
  | .bracketed true code => .block (moveWrap (fmtWrap code))
  | v => v

/-- Modelled from the spec: one generated builder call (§4.6).  `attrBare` is
a bare valueless markup attribute; `attrVal` a markup attribute with a value;
`propCall` a component-builder setter; `dirCall` a directive call. -/
inductive Call where
  | attrBare (key : String)
  | attrVal (key : String) (v : Value)
  | propCall (key : String) (v : Value)
  | dirCall (kind : DirKind) (subkey : String) (v : Option Value)
deriving DecidableEq, Repr

/-- Modelled from the spec: fatal generation-time conditions (§7,
"Semantic-adjacent panics"). -/
inductive GenError where
  | classNameWhitespace (name : String)
deriving DecidableEq, Repr

/-- Whether a string contains any whitespace character. -/
def hasWhitespace (s : String) : Bool := s.data.any Char.isWhitespace

/-- Modelled from the spec: lowering of a directive (§4.6).  A `class:`
directive whose literal name contains whitespace is a fatal generation-time
condition (§7; `src/lib.rs`: "Make sure the string for `class:` doesn't have
spaces, or it will panic!"); every other directive lowers to a directive
call with its value normalized. -/
def genDirective (kind : DirKind) (subkey : String) (v : Option Value) :
    Except GenError Call :=
  if kind = .cls ∧ hasWhitespace subkey then .error (.classNameWhitespace subkey)
  else .ok (.dirCall kind subkey (v.map normValue))

/-- Modelled from the spec: lowering of one attribute record on an Element
(§4.5).  Boolean `true` becomes a bare valueless attribute, `false` is
omitted entirely; a shorthand keeps the hyphenated key but underscores the
value identifier; directives dispatch to `genDirective`. -/
def genElementAttr (a : AttrRecord) : Except GenError (List Call) :=
  match a with
  | .keyValue key v =>
    match normValue v with
    | .litBool true => .ok [.attrBare key]
    | .litBool false => .ok []
    | v => .ok [.attrVal key v]
  | .boolFlag key => .ok [.attrBare key]
  | .shorthand key => .ok [.attrVal key (.block (underscore key))]
  | .directive kind subkey v => (genDirective kind subkey v).map (fun c => [c])
  | .directiveShorthand kind name =>
      (genDirective kind name (some (.block (underscore name)))).map (fun c => [c])

/-- Modelled from the spec: lowering of one attribute record on a Component
(§4.5).  Components always receive an explicit `true`/`false` value; keys
and shorthand-derived value identifiers are translated to underscores;
directives dispatch to `genDirective`. -/
def genComponentAttr (a : AttrRecord) : Except GenError (List Call) :=
  match a with
  | .keyValue key v => .ok [.propCall (underscore key) (normValue v)]
  | .boolFlag key => .ok [.propCall (underscore key) (.litBool true)]
  | .shorthand key => .ok [.propCall (underscore key) (.block (underscore key))]
  | .directive kind subkey v => (genDirective kind subkey v).map (fun c => [c])
  | .directiveShorthand kind name =>
      (genDirective kind name (some (.block (underscore name)))).map (fun c => [c])

/-- Modelled from the spec: generated code for one node (§4.6) — an element
with its setter calls and attached children, a component additionally
carrying its per-name slot aggregates and children closure parameters, a
generated slot value, literal text, a verbatim spliced expression, or the
fixed doctype call. -/
inductive Code where
  | elem (tag : String) (classes : List String) (ids : List String)
      (calls : List Call) (params : List String) (children : List Code)
  | comp (path : String) (calls : List Call)
      (slotArgs : List (String × List Code)) (params : List String)
      (children : List Code)
  | slotVal (name : String) (calls : List Call) (params : List String)
      (children : List Code)
  | text (s : String)
  | rust (code : String)
  | doctype
deriving Repr

/-- The slot name of a generated child, when it is a slot value. -/
def codeSlotName : Code → Option String
  | .slotVal n _ _ _ => some n
  | _ => none

/-- The slot name of a parsed child node, when it is a slot. -/
def nodeSlotName : Node → Option String
  | .slot n _ _ _ => some n
  | _ => none

/-- Whether a parsed child node is a slot child. -/
def isSlot (n : Node) : Bool := (nodeSlotName n).isSome

/-- Modelled from the spec: the ordinary (non-slot) generated children, kept
in source order (§4.6, §9 "Slot grouping as a post-pass"). -/
def ordinaryCodes (cs : List Code) : List Code :=
  cs.filter (fun c => (codeSlotName c).isNone)

/-- The distinct slot names among the generated children. -/
def codeSlotNames (cs : List Code) : List String :=
  (cs.filterMap codeSlotName).dedup

/-- Modelled from the spec: the slot-grouping post-pass (§4.6, §9) — slot
children are accumulated by slot name into a per-name aggregate, each
aggregate keeping declaration order. -/
def groupSlotCodes (cs : List Code) : List (String × List Code) :=
  (codeSlotNames cs).map (fun n => (n, cs.filter (fun c => codeSlotName c = some n)))

/-- Modelled from the spec: lowering of an attribute list — each record's
setter calls are emitted in source order (§4.6). -/
def genAttrList (f : AttrRecord → Except GenError (List Call)) :
    List AttrRecord → Except GenError (List Call)
  | [] => .ok []
  | a :: rest =>
    match f a with
    | .error e => .error e
    | .ok cs =>
      match genAttrList f rest with
      | .error e => .error e
      | .ok more => .ok (cs ++ more)

mutual

/-- Modelled from the spec: the code generator (§4.6) of the missing
proc-macro crate.  Emits, per node, the builder-call chain: construction by
name, attribute/directive setter calls in source order, children attached in
order with declared closure parameters, and — for components — slot children
regrouped by name as per-name aggregates. -/
def genNode : Node → Except GenError Code
  | .element tag classes ids attrs params children =>
    match genAttrList genElementAttr attrs with
    | .error e => .error e
    | .ok calls =>
      match genNodes children with
      | .error e => .error e
      | .ok kids => .ok (.elem tag classes ids calls params kids)
  | .component path attrs params children =>
    match genAttrList genComponentAttr attrs with
    | .error e => .error e
    | .ok calls =>
      match genNodes children with
      | .error e => .error e
      | .ok kids =>
          .ok (.comp path calls (groupSlotCodes kids) params (ordinaryCodes kids))
  | .slot name attrs params children =>
    match genAttrList genComponentAttr attrs with
    | .error e => .error e
    | .ok calls =>
      match genNodes children with
      | .error e => .error e
      | .ok kids => .ok (.slotVal name calls params kids)
  | .text s => .ok (.text s)
  | .block code => .ok (.rust code)
  | .bracketed fmt code => .ok (.rust (moveWrap (if fmt then fmtWrap code else code)))
  | .doctype => .ok .doctype

/-- Generation of a child list, in order. -/
def genNodes : List Node → Except GenError (List Code)
  | [] => .ok []
  | n :: ns =>
    match genNode n with
    | .error e => .error e
    | .ok c =>
      match genNodes ns with
      | .error e => .error e
      | .ok ks => .ok (c :: ks)

end

/-- Modelled from the spec: recoverable parse diagnostics (§7). -/
inductive ParseDiag where
  | missingValueAfterEq (key : String)
  | disallowedChildLiteral
  | shorthandUnsupported (kind : DirKind)
  | cloneTakesNoValue (subkey : String)
deriving DecidableEq, Repr

/-- Modelled from the spec: the placeholder value substituted when `=` has no
following value token (§4.3); the crate root exposes the marker type
`leptos_mview::MissingValueAfterEq` for exactly this purpose
(`src/lib.rs:512`). -/
def placeholderValue : Value := .block ("::leptos_mview::MissingValueAfterEq")

/-- Modelled from the spec: parsing one `key=...` attribute whose value token
may be absent (§4.3) — when `=` is present with no following value token a
diagnostic is recorded, a placeholder is substituted, and the record is still
produced. -/
def parseAttrValue (key : String) (v : Option Value) : AttrRecord × List ParseDiag :=
  match v with
  | some value => (.keyValue key value, [])
  | none => (.keyValue key placeholderValue, [.missingValueAfterEq key])

/-- Modelled from the spec: parsing a whole key-value attribute list,
accumulating recoverable diagnostics while continuing with the rest (§4.3,
§7). -/
def parseAttrs : List (String × Option Value) → List AttrRecord × List ParseDiag
  | [] => ([], [])
  | (k, v) :: rest =>
    ((parseAttrValue k v).1 :: (parseAttrs rest).1,
     (parseAttrValue k v).2 ++ (parseAttrs rest).2)

/-- Modelled from the spec: which directive kinds accept the attribute
shorthand `kind:{name}` — all except `clone` (`src/lib.rs`: "All of these
directives except `clone` also support the attribute shorthand"). -/
def supportsShorthand : DirKind → Bool
  | .clone => false
  | _ => true

/-- Modelled from the spec: parsing a directive written in shorthand form
`kind:{name}` (§4.3); rejected for `clone`. -/
def parseDirectiveShorthand (kind : DirKind) (name : String) :
    Except ParseDiag AttrRecord :=
  if supportsShorthand kind then .ok (.directiveShorthand kind name)
  else .error (.shorthandUnsupported kind)

/-- Modelled from the spec: parsing a directive written with an explicit
subkey and optional value (§4.3); `clone` takes only a bare identifier with
no value (`src/lib.rs`: directive list shows `clone:ident_to_clone` only). -/
def parseDirectiveValued (kind : DirKind) (subkey : String) (v : Option Value) :
    Except ParseDiag AttrRecord :=
  match kind, v with
  | .clone, some _ => .error (.cloneTakesNoValue subkey)
  | _, _ => .ok (.directive kind subkey v)

/-- Modelled from the spec: one value token in child position (§4.4). -/
inductive ChildToken where
  | litStr (s : String)
  | litInt (n : Int)
  | litBool (b : Bool)
  | braceGroup (code : String)
  | bracketGroup (fmt : Bool) (code : String)
deriving DecidableEq, Repr

/-- Modelled from the spec: classification of a child value token (§4.4) —
a string literal becomes `Text`; numeric and boolean literals are rejected
with a diagnostic; brace groups and bracket groups are accepted. -/
def parseChildValue : ChildToken → Except ParseDiag Node
  | .litStr s => .ok (.text s)
  | .litInt _ => .error .disallowedChildLiteral
  | .litBool _ => .error .disallowedChildLiteral
  | .braceGroup code => .ok (.block code)
  | .bracketGroup fmt code => .ok (.bracketed fmt code)

/-- Modelled from the spec: parsing a sequence of child value tokens,
skipping rejected ones while recording their diagnostics and continuing with
the rest (§4.4, §7). -/
def parseChildren : List ChildToken → List Node × List ParseDiag
  | [] => ([], [])
  | t :: rest =>
    match parseChildValue t with
    | .ok n => (n :: (parseChildren rest).1, (parseChildren rest).2)
    | .error d => ((parseChildren rest).1, d :: (parseChildren rest).2)

/-! Helper lemmas shared by the claim theorems. -/

theorem underscoreChar_idem (c : Char) :
    underscoreChar (underscoreChar c) = underscoreChar c := by
  by_cases h : c = '-'
  · subst h; decide
  · simp [underscoreChar, h]

theorem underscore_idem (s : String) : underscore (underscore s) = underscore s := by
  show String.mk ((s.data.map underscoreChar).map underscoreChar) = _
  rw [List.map_map]
  exact congrArg String.mk (List.map_congr_left (fun c _ => underscoreChar_idem c))

theorem normValue_block (code : String) : normValue (.block code) = .block code := rfl

theorem genNode_slotName (n : Node) (c : Code) (h : genNode n = .ok c) :
    codeSlotName c = nodeSlotName n := by
  cases n with
  | element tag classes ids attrs params children =>
    rw [genNode] at h
    cases hA : genAttrList genElementAttr attrs with
    | error e => simp [hA] at h
    | ok calls =>
      cases hK : genNodes children with
      | error e => simp [hA, hK] at h
      | ok kids => simp [hA, hK] at h; subst h; rfl
  | component path attrs params children =>
    rw [genNode] at h
    cases hA : genAttrList genComponentAttr attrs with
    | error e => simp [hA] at h
    | ok calls =>
      cases hK : genNodes children with
      | error e => simp [hA, hK] at h
      | ok kids => simp [hA, hK] at h; subst h; rfl
  | slot name attrs params children =>
    rw [genNode] at h
    cases hA : genAttrList genComponentAttr attrs with
    | error e => simp [hA] at h
    | ok calls =>
      cases hK : genNodes children with
      | error e => simp [hA, hK] at h
      | ok kids => simp [hA, hK] at h; subst h; rfl
  | text s => rw [genNode] at h; cases h; rfl
  | block code => rw [genNode] at h; cases h; rfl
  | bracketed fmt code => rw [genNode] at h; cases h; rfl
  | doctype => rw [genNode] at h; cases h; rfl

theorem genNodes_filter (cs : List Node) (kids : List Code)
    (h : genNodes cs = .ok kids) :
    genNodes (cs.filter (fun n => !(isSlot n))) = .ok (ordinaryCodes kids) := by
  induction cs generalizing kids with
  | nil => rw [genNodes] at h; cases h; rfl
  | cons n ns ih =>
    rw [genNodes] at h
    cases hc : genNode n with
    | error e => simp [hc] at h
    | ok c =>
      cases hks : genNodes ns with
      | error e => simp [hc, hks] at h
      | ok ks =>
        simp [hc, hks] at h
        subst h
        have hslot := genNode_slotName n c hc
        by_cases hs : isSlot n
        · have hfilter : (n :: ns).filter (fun m => !(isSlot m)) =
              ns.filter (fun m => !(isSlot m)) := by simp [List.filter_cons, hs]
          have hcode : (codeSlotName c).isNone = false := by
            rw [hslot]; unfold isSlot at hs
            cases hnn : nodeSlotName n with
            | none => rw [hnn] at hs; simp at hs
            | some nm => rfl
          rw [hfilter, ih ks hks]
          simp [ordinaryCodes, List.filter_cons, hcode]
        · have hfilter : (n :: ns).filter (fun m => !(isSlot m)) =
              n :: ns.filter (fun m => !(isSlot m)) := by simp [List.filter_cons, hs]
          have hcode : (codeSlotName c).isNone = true := by
            rw [hslot]; unfold isSlot at hs
            cases hnn : nodeSlotName n with
            | none => rfl
            | some nm => rw [hnn] at hs; simp at hs
          rw [hfilter, genNodes]
          rw [hc, ih ks hks]
          simp [ordinaryCodes, List.filter_cons, hcode]

theorem genAttrList_append (f : AttrRecord → Except GenError (List Call))
    (xs ys : List AttrRecord) (as' bs : List Call)
    (hx : genAttrList f xs = .ok as') (hy : genAttrList f ys = .ok bs) :
    genAttrList f (xs ++ ys) = .ok (as' ++ bs) := by
  induction xs generalizing as' with
  | nil => rw [genAttrList] at hx; cases hx; simpa using hy
  | cons a rest ih =>
    rw [genAttrList] at hx
    cases hfa : f a with
    | error e => simp [hfa] at hx
    | ok cs =>
      cases hrest : genAttrList f rest with
      | error e => simp [hfa, hrest] at hx
      | ok more =>
        simp [hfa, hrest] at hx
        subst hx
        rw [List.cons_append, genAttrList, hfa, ih more hrest]
        simp

theorem groupSlotCodes_find (kids : List Code) (n : String) :
    (groupSlotCodes kids).find? (fun p => p.1 == n) =
      if (kids.filter (fun c => codeSlotName c = some n)).isEmpty then none
      else some (n, kids.filter (fun c => codeSlotName c = some n)) := by
  have hcomp : (groupSlotCodes kids).find? (fun p => p.1 == n) =
      ((codeSlotNames kids).find? (fun m => m == n)).map
        (fun m => (m, kids.filter (fun c => codeSlotName c = some m))) := by
    unfold groupSlotCodes
    rw [List.find?_map]
    rfl
  rw [hcomp]
  by_cases hmem : n ∈ codeSlotNames kids
  · have hfind : (codeSlotNames kids).find? (fun m => m == n) = some n := by
      have hsome : ((codeSlotNames kids).find? (fun m => m == n)).isSome :=
        List.find?_isSome.mpr ⟨n, hmem, beq_self_eq_true n⟩
      obtain ⟨m, hm⟩ := Option.isSome_iff_exists.mp hsome
      have hpm := List.find?_some hm
      have hmn : m = n := by simpa using hpm
      rw [hm, hmn]
    have hne : kids.filter (fun c => codeSlotName c = some n) ≠ [] := by
      rw [Ne, List.filter_eq_nil_iff]
      push_neg
      obtain ⟨c, hc, hcn⟩ := List.mem_filterMap.mp
        (List.mem_dedup.mp
          (show n ∈ (kids.filterMap codeSlotName).dedup from hmem))
      exact ⟨c, hc, by simp [hcn]⟩
    have hemp : (kids.filter (fun c => codeSlotName c = some n)).isEmpty = false := by
      simpa [List.isEmpty_iff] using hne
    rw [hfind, hemp]
    simp
  · have hfind : (codeSlotNames kids).find? (fun m => m == n) = none := by
      rw [List.find?_eq_none]
      intro x hx hxn
      have hxeq : x = n := by simpa using hxn
      subst hxeq
      exact hmem hx
    have hfe : kids.filter (fun c => codeSlotName c = some n) = [] := by
      rw [List.filter_eq_nil_iff]
      intro c hc hcn
      have hcn' : codeSlotName c = some n := by simpa using hcn
      exact hmem (List.mem_dedup.mpr (List.mem_filterMap.mpr ⟨c, hc, hcn'⟩))
    rw [hfind]
    simp [hfe]

/-! The claim theorems. -/

/-- C1: every bracketed value `[expr]` in attribute-value or child position
generates output identical to the explicit block `{move || expr}`, every
format-prefixed `f[fmt, args...]` generates output identical to
`{move || format!(fmt, args...)}`, and `f` is the only recognized
format-prefix name. -/
theorem bracket_closure_expansion :
    (∀ e, normValue (.bracketed false e) = .block (moveWrap e))
    ∧ (∀ c, normValue (.bracketed true c) = .block (moveWrap (fmtWrap c)))
    ∧ (∀ k e, genElementAttr (.keyValue k (.bracketed false e)) =
        genElementAttr (.keyValue k (.block (moveWrap e))))
    ∧ (∀ k c, genElementAttr (.keyValue k (.bracketed true c)) =
        genElementAttr (.keyValue k (.block (moveWrap (fmtWrap c)))))
    ∧ (∀ k e, genComponentAttr (.keyValue k (.bracketed false e)) =
        genComponentAttr (.keyValue k (.block (moveWrap e))))
    ∧ (∀ k c, genComponentAttr (.keyValue k (.bracketed true c)) =
        genComponentAttr (.keyValue k (.block (moveWrap (fmtWrap c)))))
    ∧ (∀ e, genNode (.bracketed false e) = genNode (.block (moveWrap e)))
    ∧ (∀ c, genNode (.bracketed true c) = genNode (.block (moveWrap (fmtWrap c))))
    ∧ (∀ s, isFormatShorthand s = true ↔ s = "f") := by
  refine ⟨fun e => rfl, fun c => rfl, fun k e => rfl, fun k c => rfl,
    fun k e => rfl, fun k c => rfl, fun e => rfl, fun c => rfl, fun s => ?_⟩
  simp [isFormatShorthand, formatShorthandNames]

/-- C2: on an Element, a boolean attribute with value `true` (written bare or
as `key=true`) lowers to a bare valueless attribute, and value `false` makes
the attribute be omitted entirely from the generated calls. -/
theorem element_boolean_attribute :
    (∀ key, genElementAttr (.keyValue key (.litBool true)) = .ok [.attrBare key])
    ∧ (∀ key, genElementAttr (.boolFlag key) = .ok [.attrBare key])
    ∧ (∀ key, genElementAttr (.keyValue key (.litBool false)) = .ok []) :=
  ⟨fun _ => rfl, fun _ => rfl, fun _ => rfl⟩

/-- C3: on a Component, the bare flag `k` lowers identically to `k=true`
(an explicit true prop value), and `k=false` lowers to a setter passing an
explicit false value to the component builder. -/
theorem component_boolean_attribute :
    (∀ key, genComponentAttr (.boolFlag key) =
        genComponentAttr (.keyValue key (.litBool true)))
    ∧ (∀ key, genComponentAttr (.keyValue key (.litBool false)) =
        .ok [.propCall (underscore key) (.litBool false)]) :=
  ⟨fun _ => rfl, fun _ => rfl⟩

/-- C4: a shorthand attribute `{name-with-hyphens}` on a Component lowers
identically to `name_with_hyphens={name_with_hyphens}` (both key and value
identifier underscored), while on an Element the emitted key keeps its
hyphens and only the referenced value identifier is underscored. -/
theorem shorthand_hyphen_handling :
    (∀ key, genComponentAttr (.shorthand key) =
        genComponentAttr (.keyValue (underscore key) (.block (underscore key))))
    ∧ (∀ key, genComponentAttr (.shorthand key) =
        .ok [.propCall (underscore key) (.block (underscore key))])
    ∧ (∀ key, genElementAttr (.shorthand key) =
        .ok [.attrVal key (.block (underscore key))])
    ∧ underscore ("name-with-hyphens") = "name_with_hyphens" := by
  refine ⟨fun key => ?_, fun key => rfl, fun key => rfl, by decide⟩
  simp [genComponentAttr, underscore_idem, normValue_block]

/-- C7: the children parser rejects numeric and boolean literals in child
position with a recoverable diagnostic, accepts a string literal in the same
position as a `Text` node, accepts blocks and bracketed expressions, and
continues parsing the remaining children after a rejection. -/
theorem child_literal_rejection :
    (∀ n : Int, parseChildValue (.litInt n) = .error .disallowedChildLiteral)
    ∧ (∀ b : Bool, parseChildValue (.litBool b) = .error .disallowedChildLiteral)
    ∧ (∀ s, parseChildValue (.litStr s) = .ok (.text s))
    ∧ (∀ code, parseChildValue (.braceGroup code) = .ok (.block code))
    ∧ (∀ fmt code, parseChildValue (.bracketGroup fmt code) =
        .ok (.bracketed fmt code))
    ∧ (∀ n ts, parseChildren (.litInt n :: ts) =
        ((parseChildren ts).1, .disallowedChildLiteral :: (parseChildren ts).2))
    ∧ (∀ b ts, parseChildren (.litBool b :: ts) =
        ((parseChildren ts).1, .disallowedChildLiteral :: (parseChildren ts).2))
    ∧ (∀ s ts, parseChildren (.litStr s :: ts) =
        (Node.text s :: (parseChildren ts).1, (parseChildren ts).2)) :=
  ⟨fun _ => rfl, fun _ => rfl, fun _ => rfl, fun _ => rfl,
    fun _ _ => rfl, fun _ _ => rfl, fun _ _ => rfl, fun _ _ => rfl⟩

/-- C8: when `=` is present with no following value token, the attribute
parser records a recoverable diagnostic, substitutes the placeholder value
for that attribute, and continues parsing the rest, so several independent
problems accumulate in one invocation. -/
theorem missing_value_recovery :
    (∀ k, parseAttrValue k none =
        (.keyValue k placeholderValue, [.missingValueAfterEq k]))
    ∧ (∀ k v, parseAttrValue k (some v) = (.keyValue k v, []))
    ∧ (∀ k ts, parseAttrs ((k, none) :: ts) =
        (AttrRecord.keyValue k placeholderValue :: (parseAttrs ts).1,
         ParseDiag.missingValueAfterEq k :: (parseAttrs ts).2))
    ∧ (∀ k1 k2, parseAttrs [(k1, none), (k2, none)] =
        ([.keyValue k1 placeholderValue, .keyValue k2 placeholderValue],
         [.missingValueAfterEq k1, .missingValueAfterEq k2])) :=
  ⟨fun _ => rfl, fun _ _ => rfl, fun _ _ => rfl, fun _ _ => rfl⟩

/-- C5: for a component whose children contain slot children, generation
succeeds with all instances of the same slot name captured in declaration
order and passed together as one aggregate per name, and a slot name with
zero instances is simply absent from the aggregates (looked up as `none`)
rather than causing an error. -/
theorem component_slot_grouping
    (path : String) (attrs : List AttrRecord) (params : List String)
    (cs : List Node) (calls : List Call) (kids : List Code)
    (hA : genAttrList genComponentAttr attrs = .ok calls)
    (hK : genNodes cs = .ok kids) :
    genNode (.component path attrs params cs) =
      .ok (.comp path calls (groupSlotCodes kids) params (ordinaryCodes kids))
    ∧ (∀ n, (groupSlotCodes kids).find? (fun p => p.1 == n) =
        if (kids.filter (fun c => codeSlotName c = some n)).isEmpty then none
        else some (n, kids.filter (fun c => codeSlotName c = some n))) := by
  refine ⟨?_, fun n => groupSlotCodes_find kids n⟩
  simp [genNode, hA, hK]

/-- Witness for C5 at a concrete component mirroring `tests/slots.rs`: two
`slot:Then` instances are grouped in declaration order into one aggregate,
and the absent `Fallback` slot name is looked up as `none`, not an error. -/
theorem component_slot_grouping_witness :
    genNode (.component ("SlotIf") [.keyValue ("cond") (.litBool true)] []
        [.slot ("Then") [] [] [.text ("yay!")],
         .slot ("Then") [] [] [.text ("again")]]) =
      .ok (.comp ("SlotIf") [.propCall ("cond") (.litBool true)]
        [("Then", [.slotVal ("Then") [] [] [.text ("yay!")],
                   .slotVal ("Then") [] [] [.text ("again")]])] [] [])
    ∧ (groupSlotCodes [Code.slotVal ("Then") [] [] [.text ("yay!")],
         Code.slotVal ("Then") [] [] [.text ("again")]]).find?
        (fun p => p.1 == "Fallback") = none := by
  have h := component_slot_grouping ("SlotIf")
      [.keyValue ("cond") (.litBool true)] []
      [.slot ("Then") [] [] [.text ("yay!")], .slot ("Then") [] [] [.text ("again")]]
      [.propCall ("cond") (.litBool true)]
      [.slotVal ("Then") [] [] [.text ("yay!")],
       .slotVal ("Then") [] [] [.text ("again")]]
      rfl rfl
  refine ⟨?_, ?_⟩
  · rw [h.1]; rfl
  · rw [h.2 ("Fallback")]; rfl

/-- C6: the code generator preserves source order — lowering a concatenation
of attribute lists concatenates the generated setter calls in order, ordinary
(non-slot) children are attached in source order, the declared closure
parameters are fed into the generated node, and only slot children are
extracted and regrouped by name. -/
theorem generation_order_preserved
    (f : AttrRecord → Except GenError (List Call))
    (xs ys : List AttrRecord) (as' bs : List Call)
    (cs : List Node) (kids : List Code)
    (hx : genAttrList f xs = .ok as') (hy : genAttrList f ys = .ok bs)
    (hK : genNodes cs = .ok kids) :
    genAttrList f (xs ++ ys) = .ok (as' ++ bs)
    ∧ genNodes (cs.filter (fun n => !(isSlot n))) = .ok (ordinaryCodes kids)
    ∧ (∀ tag classes ids params attrs calls,
        genAttrList genElementAttr attrs = .ok calls →
        genNode (.element tag classes ids attrs params cs) =
          .ok (.elem tag classes ids calls params kids))
    ∧ (∀ path params attrs calls,
        genAttrList genComponentAttr attrs = .ok calls →
        genNode (.component path attrs params cs) =
          .ok (.comp path calls (groupSlotCodes kids) params (ordinaryCodes kids))) := by
  refine ⟨genAttrList_append f xs ys as' bs hx hy, genNodes_filter cs kids hK,
    ?_, ?_⟩
  · intro tag classes ids params attrs calls hA
    simp [genNode, hA, hK]
  · intro path params attrs calls hA
    simp [genNode, hA, hK]

/-- Witness for C6 at concrete inputs: two element attributes lower to their
concatenated calls in source order, the slot child is the only one removed
from the ordinary children, and the closure parameter list is fed through to
the generated component. -/
theorem generation_order_preserved_witness :
    genAttrList genElementAttr
        ([AttrRecord.boolFlag ("checked")] ++
          [AttrRecord.keyValue ("type") (.litStr ("text"))]) =
      .ok [.attrBare ("checked"), .attrVal ("type") (.litStr ("text"))]
    ∧ genNodes ([Node.text ("hi"), Node.slot ("S") [] [] []].filter
        (fun n => !(isSlot n))) = .ok [.text ("hi")]
    ∧ genNode (.component ("C") [.boolFlag ("wide")] ["p1"]
        [Node.text ("hi"), Node.slot ("S") [] [] []]) =
      .ok (.comp ("C") [.propCall ("wide") (.litBool true)]
        [("S", [.slotVal ("S") [] [] []])] ["p1"] [.text ("hi")]) := by
  have h := generation_order_preserved genElementAttr
      [AttrRecord.boolFlag ("checked")]
      [AttrRecord.keyValue ("type") (.litStr ("text"))]
      [.attrBare ("checked")] [.attrVal ("type") (.litStr ("text"))]
      [Node.text ("hi"), Node.slot ("S") [] [] []]
      [.text ("hi"), .slotVal ("S") [] [] []]
      rfl rfl rfl
  refine ⟨h.1, h.2.1, ?_⟩
  have hc := h.2.2.2 ("C") ["p1"] [.boolFlag ("wide")]
      [.propCall ("wide") (.litBool true)] rfl
  rw [hc]; rfl

/-- C9: a `class:` directive whose literal name contains whitespace is a
fatal condition at generation time — the directive, the attribute carrying
it, and the whole element lower to a generation error, never to output. -/
theorem class_whitespace_fatal
    (name : String) (v : Option Value) (h : hasWhitespace name = true) :
    genDirective .cls name v = .error (.classNameWhitespace name)
    ∧ genElementAttr (.directive .cls name v) = .error (.classNameWhitespace name)
    ∧ (∀ tag classes ids params cs,
        genNode (.element tag classes ids [.directive .cls name v] params cs) =
          .error (.classNameWhitespace name)) := by
  have h1 : genDirective .cls name v = .error (.classNameWhitespace name) := by
    simp [genDirective, h]
  refine ⟨h1, ?_, ?_⟩
  · simp [genElementAttr, h1, Except.map]
  · intro tag classes ids params cs
    simp [genNode, genAttrList, genElementAttr, h1, Except.map]

/-- Witness for C9 at the concrete name `"a b"`: the element carrying
`class:"a b"` fails generation with the whitespace error. -/
theorem class_whitespace_fatal_witness :
    hasWhitespace ("a b") = true
    ∧ genDirective .cls ("a b") none = .error (.classNameWhitespace ("a b"))
    ∧ genNode (.element ("div") [] [] [.directive .cls ("a b") none] [] []) =
        .error (.classNameWhitespace ("a b")) := by
  have h := class_whitespace_fatal ("a b") none (by decide)
  exact ⟨by decide, h.1, h.2.2 ("div") [] [] [] []⟩

/-- C10: every directive kind other than `clone` accepts the shorthand form
`kind:{name}`, which lowers identically to `kind:name={name}`; the `clone`
directive rejects the shorthand form and takes only a bare identifier with
no value. -/
theorem directive_shorthand_support
    (kind : DirKind) (name : String)
    (hk : kind ≠ .clone) (hn : underscore name = name) :
    supportsShorthand kind = true
    ∧ parseDirectiveShorthand kind name = .ok (.directiveShorthand kind name)
    ∧ (∀ nm, parseDirectiveShorthand .clone nm =
        .error (.shorthandUnsupported .clone))
    ∧ genElementAttr (.directiveShorthand kind name) =
        genElementAttr (.directive kind name (some (.block name)))
    ∧ genComponentAttr (.directiveShorthand kind name) =
        genComponentAttr (.directive kind name (some (.block name)))
    ∧ (∀ sk v, parseDirectiveValued .clone sk (some v) =
        .error (.cloneTakesNoValue sk))
    ∧ (∀ sk, parseDirectiveValued .clone sk none =
        .ok (.directive .clone sk none)) := by
  have hs : supportsShorthand kind = true := by
    cases kind <;> first | rfl | exact absurd rfl hk
  refine ⟨hs, ?_, fun nm => rfl, ?_, ?_, fun sk v => rfl, fun sk => rfl⟩
  · simp [parseDirectiveShorthand, hs]
  · simp [genElementAttr, hn]
  · simp [genComponentAttr, hn]

/-- Witness for C10 at the concrete directive `style:{color}`: the shorthand
is accepted and lowers identically to `style:color={color}`, while the same
shorthand on `clone` is rejected. -/
theorem directive_shorthand_support_witness :
    DirKind.style ≠ DirKind.clone
    ∧ underscore ("color") = "color"
    ∧ parseDirectiveShorthand .style ("color") =
        .ok (.directiveShorthand .style ("color"))
    ∧ parseDirectiveShorthand .clone ("color") =
        .error (.shorthandUnsupported .clone)
    ∧ genElementAttr (.directiveShorthand .style ("color")) =
        genElementAttr (.directive .style ("color") (some (.block ("color")))) := by
  have h := directive_shorthand_support .style ("color") (by decide) (by decide)
  exact ⟨by decide, by decide, h.2.1, h.2.2.1 ("color"), h.2.2.2.1⟩

end LeptosMview
